import Mathlib

/-!
Shallow embedding of the ONE WAY interpreter (`ow.py`).

Conventions used throughout:
* Python stacks push/pop at the tail of the list; we represent a stack as a
  `List Val` whose HEAD is the top of the stack, so `append` becomes `cons`
  and `pop` takes the head.
* Python's `Fraction` is Lean's `ℚ` (both are reduced rationals with a
  positive denominator).
* `random.randrange(n)` (with `n ≥ 1`) is modelled by an oracle stream of
  naturals carried in the machine state: a draw reads the head of the stream
  modulo `n` (hence a value in `[0, n)`) and consumes it.
* Python-level exceptions that are NOT `ProgramRaisable` (and hence escape
  the interpreter's handler as a traceback) are modelled by dedicated
  `pyCrash` / `lcrash` constructors, distinct from program errors.
-/

namespace ow

/-- The four runtime type descriptors a ONE WAY value can have
(`bool`, `num` = `Fraction`, `str`, `type`). -/
inductive TypeD where
  | boolT
  | numT
  | strT
  | typeT
deriving DecidableEq, Repr

/-- `value: TypeAlias = bool | num | str | type` — the tagged value union. -/
inductive Val where
  | boolV (b : Bool)
  | numV (q : ℚ)
  | strV (s : String)
  | typeV (t : TypeD)
deriving DecidableEq, Repr

/-- Python's `type(x)` restricted to ONE WAY values. -/
def typeOf : Val → TypeD
  | .boolV _ => .boolT
  | .numV _ => .numT
  | .strV _ => .strT
  | .typeV _ => .typeT

/-- `_repr` on the four type objects: `bool`/`str`/`type` render via
`__name__`, `Fraction` renders as `"num"` via the `issubclass` branch. -/
def typeName : TypeD → String
  | .boolT => "bool"
  | .numT => "num"
  | .strT => "str"
  | .typeT => "type"

/-- A `ProgramRaisable`: a name plus a description. -/
structure PErr where
  name : String
  desc : String
deriving DecidableEq, Repr

/-- The type argument `t` passed to `_get` (`bool`, `num`, `str` or `object`). -/
inductive TReq where
  | rBool
  | rNum
  | rStr
  | rObj
deriving DecidableEq, Repr

/-- `isinstance(x, t)` for the four classes `_get` is used with.  A Python
`bool` is not a `Fraction` and vice versa; every value is an `object`. -/
def reqMatches : TReq → Val → Bool
  | .rBool, .boolV _ => true
  | .rNum, .numV _ => true
  | .rStr, .strV _ => true
  | .rObj, _ => true
  | _, _ => false

/-- `_repr(t)` for the class object passed as `_get`'s expectation. -/
def reqName : TReq → String
  | .rBool => "bool"
  | .rNum => "num"
  | .rStr => "str"
  | .rObj => "object"

/-- `_get(stack_, t)`: pop the top of the stack, failing with a run-time
`PopException` on an empty stack and a `TypeException` on a value of the
wrong runtime type (the description strings, typo included, are the
source's). -/
def _get (st : List Val) (t : TReq) : Except PErr (Val × List Val) :=
  match st with
  | [] => .error ⟨"PopException", "cannot pop from empty stack"⟩
  | x :: rest =>
    if reqMatches t x then .ok (x, rest)
    else .error ⟨"TypeException",
      "recieved value of type " ++ typeName (typeOf x) ++ " (expected " ++ reqName t ++ ")"⟩

/-- Payload of a boolean value (only applied to `_get` results checked
against `bool`, so the default arm is unreachable). -/
def asBool : Val → Bool
  | .boolV b => b
  | _ => false

/-- Payload of a numeric value (default arm unreachable, see `asBool`). -/
def asNum : Val → ℚ
  | .numV q => q
  | _ => 0

/-- Payload of a string value (default arm unreachable, see `asBool`). -/
def asStr : Val → String
  | .strV s => s
  | _ => ""

/-- Decimal digits of a positive natural number, most significant first
(`fuel ≥ n` makes the division recursion structural). -/
def natCharsCore : Nat → Nat → List Char
  | _, 0 => []
  | 0, _ + 1 => []
  | fuel + 1, n + 1 => natCharsCore fuel ((n + 1) / 10) ++ [Nat.digitChar ((n + 1) % 10)]

/-- Decimal digits of a natural number, most significant first, as
characters — the meaning of Python's `str` on a non-negative `int`. -/
def natChars (n : Nat) : List Char :=
  if n = 0 then ['0'] else natCharsCore n n

/-- Python's `str` on an `int`: a `-` sign followed by the decimal digits. -/
def intChars (i : Int) : List Char :=
  if i < 0 then '-' :: natChars i.natAbs else natChars i.toNat

/-- Value of a (non-empty) list of decimal digit characters, the way
Python's `int`/`Fraction` parsing reads digit runs. -/
def charsToNat (cs : List Char) : Nat :=
  cs.foldl (fun a c => 10 * a + (c.toNat - 48)) 0

/-- Python's `str.replace(old, new)` for a single-character pattern:
replace every occurrence of `c` by `r`, left to right. -/
def pyReplaceChar (cs : List Char) (c : Char) (r : List Char) : List Char :=
  match cs with
  | [] => []
  | a :: rest =>
    if a = c then r ++ pyReplaceChar rest c r else a :: pyReplaceChar rest c r

/-- `x.replace("\\", "\\\\").replace("\n", "\\n")` — the escaping `_repr`
applies to a string body. -/
def encodeStr (cs : List Char) : List Char :=
  pyReplaceChar (pyReplaceChar cs '\\' ['\\', '\\']) '\n' ['\\', 'n']

/-- `_repr(x)`: booleans as `true`/`false`, rationals as `n` or `n/d`,
strings as `"` followed by the escaped body (the source emits NO closing
quote), type values by name. -/
def _repr : Val → String
  | .boolV b => if b then "true" else "false"
  | .numV q =>
    if q.den = 1 then String.mk (intChars q.num)
    else String.mk (intChars q.num ++ '/' :: natChars q.den)
  | .strV s => String.mk ('"' :: encodeStr s.data)
  | .typeV t => typeName t

/-- The escape-decoding loop of `_eval` on the characters after the opening
quote: `\n` → newline, `\\` → backslash, any other backslash use (including
a trailing one) is a `SyntaxError` (`none`); every other character —
including `"` — is taken literally.  There is no termination check. -/
def decodeStr : List Char → Option (List Char)
  | [] => some []
  | '\\' :: 'n' :: cs => (decodeStr cs).map (fun r => '\n' :: r)
  | '\\' :: '\\' :: cs => (decodeStr cs).map (fun r => '\\' :: r)
  | '\\' :: _ => none
  | c :: cs => (decodeStr cs).map (fun r => c :: r)

/-- Whether a quoted-token body contains an escape sequence `_eval`
rejects: a backslash followed by anything other than `n` or `\`, or a
trailing backslash.  (Spec-side characterization used to state C5.) -/
def hasBadEscape : List Char → Bool
  | [] => false
  | '\\' :: 'n' :: cs => hasBadEscape cs
  | '\\' :: '\\' :: cs => hasBadEscape cs
  | '\\' :: _ => true
  | _ :: cs => hasBadEscape cs

/-- The character-validation loop of `_eval`'s numeral branch: every
character must be a decimal digit, except at most one separator (`.` or
`/`); the flag `s` records whether a separator has been seen. -/
def sepCheck : List Char → Bool → Bool
  | [], _ => true
  | c :: rest, s =>
    if c = '.' ∨ c = '/' then (if s then false else sepCheck rest true)
    else if 48 ≤ c.toNat ∧ c.toNat ≤ 57 then sepCheck rest s
    else false

/-- `Fraction(x)` for the strings that reach it from `_eval` (an optional
leading `-`, then digits with at most one `.` or `/`): `a/b` needs
non-empty digit runs on both sides and a non-zero denominator, `a.b` needs
a digit before or after the point and divides by the right power of ten,
a bare digit run is an integer; anything else (including the empty string)
is a `ValueError`/`ZeroDivisionError`, i.e. `none`. -/
def pyFraction (cs : List Char) : Option ℚ :=
  let neg : Bool := cs.head? = some '-'
  let body := if neg then cs.tail else cs
  let app : ℚ → ℚ := fun q => if neg then -q else q
  if body.any (fun c => c == '/') then
    let p1 := body.takeWhile (fun c => c != '/')
    let p2 := (body.dropWhile (fun c => c != '/')).tail
    if p1 ≠ [] ∧ p2 ≠ [] then
      let d := charsToNat p2
      if d = 0 then none else some (app ((charsToNat p1 : ℚ) / (d : ℚ)))
    else none
  else if body.any (fun c => c == '.') then
    let p1 := body.takeWhile (fun c => c != '.')
    let p2 := (body.dropWhile (fun c => c != '.')).tail
    if p1 = [] ∧ p2 = [] then none
    else some (app (((charsToNat p1 : ℚ) * (10 : ℚ) ^ p2.length + (charsToNat p2 : ℚ)) /
      (10 : ℚ) ^ p2.length))
  else if body = [] then none else some (app (charsToNat body))

/-- The numeral branch of `_eval`: strip one leading `-`, run the character
validation, then parse with `Fraction`. -/
def evalNumTok (cs : List Char) : Option Val :=
  let body : List Char := if cs.head? = some '-' then cs.tail else cs
  if sepCheck body false then (pyFraction cs).map Val.numV else none

/-- `_eval(x)`: the literal evaluator.  Keywords first, then the quoted
branch for tokens starting with `"`, then the numeral branch; `none` is the
`SyntaxError` the callers turn into LiteralError / LiteralException. -/
def _eval (x : String) : Option Val :=
  if x = "bool" then some (.typeV .boolT)
  else if x = "false" then some (.boolV false)
  else if x = "num" then some (.typeV .numT)
  else if x = "str" then some (.typeV .strT)
  else if x = "true" then some (.boolV true)
  else if x = "type" then some (.typeV .typeT)
  else
    match x.data with
    | '"' :: body => (decodeStr body).map (fun cs => Val.strV (String.mk cs))
    | _ => evalNumTok x.data

/-- The ambient effects a command can touch besides the stacks: pending
standard-input lines, accumulated standard output, and the random oracle
stream (see the module comment). -/
structure Effects where
  inp : List String
  out : String
  rand : List Nat
deriving DecidableEq, Repr

/-- The interpreter's global mutable state: the two stacks plus effects. -/
structure MState where
  primary : List Val
  secondary : List Val
  eff : Effects
deriving DecidableEq, Repr

/-- Which of the two global stacks a command received as its `stack_`
argument. -/
inductive Sel where
  | pri
  | sec
deriving DecidableEq, Repr

/-- Read the selected stack. -/
def MState.stack (σ : MState) : Sel → List Val
  | .pri => σ.primary
  | .sec => σ.secondary

/-- Replace the selected stack. -/
def MState.withStack (σ : MState) : Sel → List Val → MState
  | .pri, st => { σ with primary := st }
  | .sec, st => { σ with secondary := st }

/-- How a built-in invocation can fail: with a `ProgramException`, or with a
Python-level exception that the interpreter does not catch (`EOFError` from
`input()`), which kills the process. -/
inductive BErr where
  | exc (e : PErr)
  | pyCrash
deriving DecidableEq, Repr

/-- `command`: the Lean shape of a Python built-in — a function of the stack
it was handed plus the ambient effects.  (`flip` is the one built-in that
does not fit this shape, see `runBuiltin`.) -/
abbrev command := List Val → Effects → Except BErr (List Val × Effects)

/-- `_get` lifted into the built-in error monad, projecting a boolean. -/
def getBool (st : List Val) : Except BErr (Bool × List Val) :=
  match _get st .rBool with
  | .ok (v, rest) => .ok (asBool v, rest)
  | .error e => .error (.exc e)

/-- `_get` lifted into the built-in error monad, projecting a rational. -/
def getNum (st : List Val) : Except BErr (ℚ × List Val) :=
  match _get st .rNum with
  | .ok (v, rest) => .ok (asNum v, rest)
  | .error e => .error (.exc e)

/-- `_get` lifted into the built-in error monad, projecting a string. -/
def getStr (st : List Val) : Except BErr (String × List Val) :=
  match _get st .rStr with
  | .ok (v, rest) => .ok (asStr v, rest)
  | .error e => .error (.exc e)

/-- `_get(stack_, object)` lifted into the built-in error monad. -/
def getObj (st : List Val) : Except BErr (Val × List Val) :=
  match _get st .rObj with
  | .ok r => .ok r
  | .error e => .error (.exc e)

/-- `add`: pops two numbers, pushes their sum (first pop is the left
operand of `+`). -/
def add : command := fun st e => do
  let (a, st1) ← getNum st
  let (b, st2) ← getNum st1
  .ok (Val.numV (a + b) :: st2, e)

/-- `and_`: Python's `and` short-circuits — if the first popped boolean is
false it is pushed back unexamined and the second operand is NOT popped. -/
def and_ : command := fun st e => do
  let (a, st1) ← getBool st
  if a then do
    let (b, st2) ← getBool st1
    .ok (Val.boolV b :: st2, e)
  else .ok (Val.boolV false :: st1, e)

/-- `chr_`: pops a number, requires an integral value in `0..1114111`,
pushes the one-character string.  (Lean `Char` cannot carry the surrogate
code points Python's `chr` accepts; no claim depends on them.) -/
def chr_ : command := fun st e => do
  let (x, st1) ← getNum st
  if x.den ≠ 1 ∨ ¬ (0 ≤ x.num ∧ x.num ≤ 1114111) then
    .error (.exc ⟨"UnicodeException",
      "\"" ++ _repr (.numV x) ++ "\" is not a valid Unicode code point"⟩)
  else .ok (Val.strV (String.mk [Char.ofNat x.num.toNat]) :: st1, e)

/-- `concat`: pops two strings, pushes first-popped ++ second-popped. -/
def concat : command := fun st e => do
  let (a, st1) ← getStr st
  let (b, st2) ← getStr st1
  .ok (Val.strV (a ++ b) :: st2, e)

/-- `divide`: pops two numbers, pushes first / second; a zero second pop is
the `ZeroDivisionError` the source converts to ZeroDivisionException. -/
def divide : command := fun st e => do
  let (a, st1) ← getNum st
  let (b, st2) ← getNum st1
  if b = 0 then .error (.exc ⟨"ZeroDivisionException", "cannot divide by 0"⟩)
  else .ok (Val.numV (a / b) :: st2, e)

/-- `drop`: pops any value and discards it. -/
def drop : command := fun st e => do
  let (_, st1) ← getObj st
  .ok (st1, e)

/-- `dupe`: pops any value and pushes it twice. -/
def dupe : command := fun st e => do
  let (x, st1) ← getObj st
  .ok (x :: x :: st1, e)

/-- `equal`: pops two values, pushes whether both runtime type and value
match (which for the tagged union is plain equality). -/
def equal : command := fun st e => do
  let (a, st1) ← getObj st
  let (b, st2) ← getObj st1
  .ok (Val.boolV (typeOf a == typeOf b && a == b) :: st2, e)

/-- `eval_`: pops a string and evaluates it as a literal; a `SyntaxError`
becomes a run-time LiteralException. -/
def eval_ : command := fun st e => do
  let (x, st1) ← getStr st
  match _eval x with
  | some v => .ok (v :: st1, e)
  | none => .error (.exc ⟨"LiteralException", "\"" ++ x ++ "\" is not a valid literal"⟩)

/-- `greater`: pops two numbers, pushes first > second. -/
def greater : command := fun st e => do
  let (a, st1) ← getNum st
  let (b, st2) ← getNum st1
  .ok (Val.boolV (decide (a > b)) :: st2, e)

/-- `input_`: pushes one line read from standard input; at end of input
Python's `input()` raises an uncaught `EOFError`. -/
def input_ : command := fun st e =>
  match e.inp with
  | [] => .error .pyCrash
  | l :: rest => .ok (Val.strV l :: st, { e with inp := rest })

/-- `len_`: pops a string, pushes its length as a number. -/
def len_ : command := fun st e => do
  let (s, st1) ← getStr st
  .ok (Val.numV (s.length : ℚ) :: st1, e)

/-- `less`: pops two numbers, pushes first < second. -/
def less : command := fun st e => do
  let (a, st1) ← getNum st
  let (b, st2) ← getNum st1
  .ok (Val.boolV (decide (a < b)) :: st2, e)

/-- `multiply`: pops two numbers, pushes their product. -/
def multiply : command := fun st e => do
  let (a, st1) ← getNum st
  let (b, st2) ← getNum st1
  .ok (Val.numV (a * b) :: st2, e)

/-- `not_`: pops a boolean, pushes its negation. -/
def not_ : command := fun st e => do
  let (a, st1) ← getBool st
  .ok (Val.boolV (!a) :: st1, e)

/-- `or_`: Python's `or` short-circuits — a true first pop is pushed back
without popping the second operand. -/
def or_ : command := fun st e => do
  let (a, st1) ← getBool st
  if a then .ok (Val.boolV true :: st1, e)
  else do
    let (b, st2) ← getBool st1
    .ok (Val.boolV b :: st2, e)

/-- `ord_`: pops a string, requires length 1, pushes the code point. -/
def ord_ : command := fun st e => do
  let (x, st1) ← getStr st
  match x.data with
  | [c] => .ok (Val.numV (c.toNat : ℚ) :: st1, e)
  | _ => .error (.exc ⟨"LengthException",
      "recieved string of length " ++ toString x.length ++ " (expected 1)"⟩)

/-- `print_`: pops a string and appends it to standard output (no newline). -/
def print_ : command := fun st e => do
  let (s, st1) ← getStr st
  .ok (st1, { e with out := e.out ++ s })

/-- `random`: pops a base bound `a`, then a far bound `b` (RangeException if
they are equal, before the third pop), then a step `s` (StepSizeException
if zero or if its sign disagrees with `b - a`); on success pushes
`a + randrange(ceil((b - a) / s)) * s`, the draw taken from the oracle. -/
def random : command := fun st e => do
  let (a, st1) ← getNum st
  let (b, st2) ← getNum st1
  if a = b then .error (.exc ⟨"RangeException", "random range is of size 0"⟩)
  else do
    let (s, st3) ← getNum st2
    if s = 0 then .error (.exc ⟨"StepSizeException", "step size cannot be 0"⟩)
    else if decide (b > a) = decide (s > 0) then
      let d : Nat := e.rand.headD 0 % (⌈(b - a) / s⌉).toNat
      .ok (Val.numV (a + (d : ℚ) * s) :: st3, { e with rand := e.rand.tail })
    else .error (.exc ⟨"StepSizeException",
      "step size sign must match boundary difference sign"⟩)

/-- `repr_`: pops any value and pushes its printable representation. -/
def repr_ : command := fun st e => do
  let (x, st1) ← getObj st
  .ok (Val.strV (_repr x) :: st1, e)

/-- `split`: pops a string and extends the stack with its characters in
reversed iteration order — with tail-top Python lists the first character
ends on top, which in our head-top representation is a prepend of the
characters in source order. -/
def split : command := fun st e => do
  let (s, st1) ← getStr st
  .ok (s.data.map (fun c => Val.strV (String.mk [c])) ++ st1, e)

/-- `subtract`: pops two numbers, pushes first − second. -/
def subtract : command := fun st e => do
  let (a, st1) ← getNum st
  let (b, st2) ← getNum st1
  .ok (Val.numV (a - b) :: st2, e)

/-- `typeof`: pops any value and pushes its runtime type. -/
def typeof : command := fun st e => do
  let (x, st1) ← getObj st
  .ok (Val.typeV (typeOf x) :: st1, e)

/-- The names of the built-in (non-block) commands in the command table. -/
inductive Builtin where
  | add | and_ | chr_ | concat | divide | drop | dupe | equal | eval_ | flip
  | greater | input_ | len_ | less | multiply | not_ | or_ | ord_ | print_
  | random | repr_ | split | subtract | typeof
deriving DecidableEq, Repr

/-- Run a `command` against the stack selected by `sel` (the `stack_`
argument it was called with), leaving the other stack untouched. -/
def onStack (f : command) (sel : Sel) (σ : MState) : Except BErr MState :=
  match f (σ.stack sel) σ.eff with
  | .ok (st, e) => .ok { σ.withStack sel st with eff := e }
  | .error err => .error err

/-- Dispatch a built-in.  Every built-in except `flip` operates on the
stack it was handed; `flip` ignores its `stack_` argument and always pops
the global primary stack and pushes onto the global secondary stack. -/
def runBuiltin : Builtin → Sel → MState → Except BErr MState
  | .flip, _, σ =>
    match _get σ.primary .rObj with
    | .ok (x, p) => .ok { σ with primary := p, secondary := x :: σ.secondary }
    | .error e => .error (.exc e)
  | .add, sel, σ => onStack add sel σ
  | .and_, sel, σ => onStack and_ sel σ
  | .chr_, sel, σ => onStack chr_ sel σ
  | .concat, sel, σ => onStack concat sel σ
  | .divide, sel, σ => onStack divide sel σ
  | .drop, sel, σ => onStack drop sel σ
  | .dupe, sel, σ => onStack dupe sel σ
  | .equal, sel, σ => onStack equal sel σ
  | .eval_, sel, σ => onStack eval_ sel σ
  | .greater, sel, σ => onStack greater sel σ
  | .input_, sel, σ => onStack input_ sel σ
  | .len_, sel, σ => onStack len_ sel σ
  | .less, sel, σ => onStack less sel σ
  | .multiply, sel, σ => onStack multiply sel σ
  | .not_, sel, σ => onStack not_ sel σ
  | .or_, sel, σ => onStack or_ sel σ
  | .ord_, sel, σ => onStack ord_ sel σ
  | .print_, sel, σ => onStack print_ sel σ
  | .random, sel, σ => onStack random sel σ
  | .repr_, sel, σ => onStack repr_ sel σ
  | .split, sel, σ => onStack split sel σ
  | .subtract, sel, σ => onStack subtract sel σ
  | .typeof, sel, σ => onStack typeof sel σ

/-- A node of the parsed program tree, annotated with the 1-based index (in
the blank-filtered source) of the line that created it: a built-in
reference, a `push` of a literal value, or one of the block classes `if_`,
`if_else`, `second`, `while_`.  An `if_else` is, like in the source, a
single flat child list with a split index: the first `nIf` children are the
`if` branch, the rest the `else` branch. -/
inductive Cmd where
  | bi (line : Nat) (b : Builtin)
  | pushC (line : Nat) (v : Val)
  | if_ (line : Nat) (children : List Cmd)
  | if_else (line : Nat) (nIf : Nat) (children : List Cmd)
  | second (line : Nat) (children : List Cmd)
  | while_ (line : Nat) (children : List Cmd)
deriving Repr

/-- The child list of a block node (`none` for the two leaf kinds, which in
Python are not subscriptable / appendable). -/
def childrenOf : Cmd → Option (List Cmd)
  | .if_ _ cs => some cs
  | .if_else _ _ cs => some cs
  | .second _ cs => some cs
  | .while_ _ cs => some cs
  | _ => none

/-- Rebuild a block node with a new child list (identity on leaves). -/
def withChildren : Cmd → List Cmd → Cmd
  | .if_ ln _, cs => .if_ ln cs
  | .if_else ln n _, cs => .if_else ln n cs
  | .second ln _, cs => .second ln cs
  | .while_ ln _, cs => .while_ ln cs
  | c, _ => c

/-- `isinstance(c, second)`. -/
def isSecNode : Cmd → Bool
  | .second _ _ => true
  | _ => false

/-- How loading a line can fail: with a `ProgramError` (reported with the
line number), or with a Python exception the interpreter does not catch
(an `else` on an empty container hits an `IndexError`; appending to or
subscripting a non-block leaf raises `AttributeError`/`TypeError`), which
escapes as a traceback. -/
inductive LoadErr where
  | perr (name desc : String)
  | lcrash
deriving DecidableEq, Repr

/-- What a classified source line asks the loader to do at its indentation
depth: append a command, upgrade the last sibling on `else`, or raise the
literal/command error the classification itself produced. -/
inductive LAction where
  | app (c : Cmd)
  | els
  | litErr (tok : String)
  | cmdErr (nm : String)

/-- Perform an action on the container (with children `cs`) finally reached
by the indentation descent; `isSec` says whether that container is a
`second` block (whose `append` rejects `second` children).  An `else` on an
empty container hits Python's uncaught `IndexError` (`lcrash`), on a
non-`if_` last element a ProgramError. -/
def actHere (isSec : Bool) (cs : List Cmd) : LAction → Except LoadErr (List Cmd)
  | .app c =>
    if isSec && isSecNode c then .error (.perr "SecondError" "cannot nest second blocks")
    else .ok (cs ++ [c])
  | .els =>
    match cs.getLast? with
    | none => .error .lcrash
    | some (.if_ ln body) => .ok (cs.dropLast ++ [.if_else ln body.length body])
    | some _ => .error (.perr "ElseError" "else must have a matching if")
  | .litErr tok => .error (.perr "LiteralError" ("\"" ++ tok ++ "\" is not a valid literal"))
  | .cmdErr nm => .error (.perr "CommandError" ("\"" ++ nm ++ "\" is not a recognized command"))

/-- Perform an action whose final descent target turned out to be a
non-block leaf: classification errors still surface as ProgramErrors
(they are raised before the append), while `append`/`else` on the leaf is
an uncaught `AttributeError`/`TypeError` (`lcrash`). -/
def actLeaf : LAction → Except LoadErr (List Cmd)
  | .litErr tok => .error (.perr "LiteralError" ("\"" ++ tok ++ "\" is not a valid literal"))
  | .cmdErr nm => .error (.perr "CommandError" ("\"" ++ nm ++ "\" is not a recognized command"))
  | _ => .error .lcrash

/-- Perform `act` on the container reached by descending `d` last-child
steps from the container with children `cs`.  Descending from an empty
container, or descending again into a leaf, is the caught
`IndexError`/`TypeError` → IndentationError. -/
def actAt (isSec : Bool) (cs : List Cmd) : Nat → LAction → Except LoadErr (List Cmd)
  | 0, act => actHere isSec cs act
  | d + 1, act =>
    match cs.getLast? with
    | none => .error (.perr "IndentationError" "unexpected indent")
    | some last =>
      match childrenOf last with
      | some sub =>
        match actAt (isSecNode last) sub d act with
        | .ok sub2 => .ok (cs.dropLast ++ [withChildren last sub2])
        | .error err => .error err
      | none =>
        if d = 0 then actLeaf act
        else .error (.perr "IndentationError" "unexpected indent")

/-- Strip leading two-space units: the number of descents the line claims
and the remaining text. -/
def splitIndent : List Char → Nat × List Char
  | ' ' :: ' ' :: rest =>
    let r := splitIndent rest
    (r.1 + 1, r.2)
  | cs => (0, cs)

/-- `line.startswith("push ")`, returning the literal token after it. -/
def isPushLine : List Char → Option (List Char)
  | 'p' :: 'u' :: 's' :: 'h' :: ' ' :: tok => some tok
  | _ => none

/-- The command-name table of the loader (block names yield fresh empty
block nodes). -/
def cmdOfName (ln : Nat) : String → Option Cmd
  | "add" => some (.bi ln .add)
  | "and" => some (.bi ln .and_)
  | "chr" => some (.bi ln .chr_)
  | "concat" => some (.bi ln .concat)
  | "divide" => some (.bi ln .divide)
  | "drop" => some (.bi ln .drop)
  | "dupe" => some (.bi ln .dupe)
  | "equal" => some (.bi ln .equal)
  | "eval" => some (.bi ln .eval_)
  | "flip" => some (.bi ln .flip)
  | "greater" => some (.bi ln .greater)
  | "if" => some (.if_ ln [])
  | "input" => some (.bi ln .input_)
  | "len" => some (.bi ln .len_)
  | "less" => some (.bi ln .less)
  | "multiply" => some (.bi ln .multiply)
  | "not" => some (.bi ln .not_)
  | "or" => some (.bi ln .or_)
  | "ord" => some (.bi ln .ord_)
  | "print" => some (.bi ln .print_)
  | "random" => some (.bi ln .random)
  | "repr" => some (.bi ln .repr_)
  | "second" => some (.second ln [])
  | "split" => some (.bi ln .split)
  | "subtract" => some (.bi ln .subtract)
  | "typeof" => some (.bi ln .typeof)
  | "while" => some (.while_ ln [])
  | _ => none

/-- Classify the de-indented text of line `ln`: `push` with a good/bad
literal, `else`, a known command name, or an unknown one.  Mirrors the
source's branch order (`push ` prefix first, then `else`, then the table). -/
def classify (ln : Nat) (content : List Char) : LAction :=
  match isPushLine content with
  | some tok =>
    match _eval (String.mk tok) with
    | some v => .app (.pushC ln v)
    | none => .litErr (String.mk tok)
  | none =>
    if String.mk content = "else" then .els
    else
      match cmdOfName ln (String.mk content) with
      | some c => .app c
      | none => .cmdErr (String.mk content)

/-- Load one source line into the top-level child list. -/
def loadLine (ln : Nat) (cs : List Cmd) (line : String) : Except LoadErr (List Cmd) :=
  let p := splitIndent line.data
  actAt false cs p.1 (classify ln p.2)

/-- Fold the loader over the lines, numbering them from `n`; a failure
carries the 1-based line index it occurred at. -/
def loadAux : Nat → List Cmd → List String → Except (LoadErr × Nat) (List Cmd)
  | _, cs, [] => .ok cs
  | n, cs, l :: ls =>
    match loadLine n cs l with
    | .ok cs2 => loadAux (n + 1) cs2 ls
    | .error e => .error (e, n)

/-- The blank-line filter the source applies before parsing. -/
def sourceLines (lines : List String) : List String :=
  lines.filter (fun l => l ≠ "")

/-- Load a whole program: drop blank lines, then parse each line in order
into the top-level block's child list. -/
def load (lines : List String) : Except (LoadErr × Nat) (List Cmd) :=
  loadAux 1 [] (sourceLines lines)

/-- How execution of the tree can stop abnormally: a `ProgramException`
(carrying the 1-based source line of the statement that was executing when
it was raised), an uncaught Python exception, or fuel exhaustion (a model
artefact standing for a still-running program). -/
inductive ExecErr where
  | exc (name desc : String) (line : Nat)
  | pyCrash
  | noFuel
deriving DecidableEq, Repr

/-- Run the commands of a block in order against a stepping function,
stopping at the first failure — `Block.__call__`'s loop. -/
def execSeq (f : Cmd → MState → Except ExecErr MState) :
    List Cmd → MState → Except ExecErr MState
  | [], σ => .ok σ
  | c :: cs, σ =>
    match f c σ with
    | .ok σ2 => execSeq f cs σ2
    | .error e => .error e

/-- Execute one command (built-in or block) with `sel` naming the stack it
was handed, fuelled to keep `while_` total.  Block semantics follow the
`__call__` methods: `if_`/`if_else`/`while_` pop their boolean from the
handed stack, `second` runs every child against the secondary stack. -/
def execCmd : Nat → Cmd → Sel → MState → Except ExecErr MState
  | 0, _, _, _ => .error .noFuel
  | fuel + 1, c, sel, σ =>
    match c with
    | .bi ln b =>
      match runBuiltin b sel σ with
      | .ok σ2 => .ok σ2
      | .error (.exc e) => .error (.exc e.name e.desc ln)
      | .error .pyCrash => .error .pyCrash
    | .pushC _ v => .ok (σ.withStack sel (v :: σ.stack sel))
    | .if_ ln cs =>
      match _get (σ.stack sel) .rBool with
      | .error e => .error (.exc e.name e.desc ln)
      | .ok (v, st2) =>
        let σ2 := σ.withStack sel st2
        if asBool v then execSeq (fun c2 σ3 => execCmd fuel c2 sel σ3) cs σ2 else .ok σ2
    | .if_else ln n cs =>
      match _get (σ.stack sel) .rBool with
      | .error e => .error (.exc e.name e.desc ln)
      | .ok (v, st2) =>
        let σ2 := σ.withStack sel st2
        execSeq (fun c2 σ3 => execCmd fuel c2 sel σ3) (if asBool v then cs.take n else cs.drop n) σ2
    | .second _ cs => execSeq (fun c2 σ3 => execCmd fuel c2 .sec σ3) cs σ
    | .while_ ln cs =>
      match _get (σ.stack sel) .rBool with
      | .error e => .error (.exc e.name e.desc ln)
      | .ok (v, st2) =>
        let σ2 := σ.withStack sel st2
        if asBool v then
          match execSeq (fun c2 σ3 => execCmd fuel c2 sel σ3) cs σ2 with
          | .ok σ4 => execCmd fuel (.while_ ln cs) sel σ4
          | .error e => .error e
        else .ok σ2

/-- The fresh state a run starts from: both stacks empty. -/
def initState (inp : List String) (rand : List Nat) : MState :=
  ⟨[], [], ⟨inp, "", rand⟩⟩

/-- `main(primary)`: execute the loaded top-level block against the primary
stack. -/
def runMain (fuel : Nat) (prog : List Cmd) (σ : MState) : Except ExecErr MState :=
  execSeq (fun c σ2 => execCmd fuel c .pri σ2) prog σ

/-- The `<name>#<line>` header the interpreter prints on stderr for a
`ProgramRaisable`, if any: for a load-time ProgramError the line the parse
loop was at; for a run-time ProgramException the leftover value of the
parse loop's `line_number` variable, i.e. the index of the LAST non-blank
source line — not the line of the failing statement.  Uncaught Python
exceptions print no header. -/
def reportedHeader (lines : List String) (inp : List String) (rand : List Nat)
    (fuel : Nat) : Option (String × Nat) :=
  let src := sourceLines lines
  match loadAux 1 [] src with
  | .error (.perr name _, n) => some (name, n)
  | .error (.lcrash, _) => none
  | .ok prog =>
    match runMain fuel prog (initState inp rand) with
    | .error (.exc name _ _) => some (name, src.length)
    | _ => none

/-- The 1-based source line of the statement that was executing when a
run-time ProgramException was raised (the ground truth the header should
report, per the spec). -/
def failingLine (lines : List String) (inp : List String) (rand : List Nat)
    (fuel : Nat) : Option Nat :=
  match load lines with
  | .ok prog =>
    match runMain fuel prog (initState inp rand) with
    | .error (.exc _ _ ln) => some ln
    | _ => none
  | .error _ => none

/-- Modelled from the claim C4's words (NOT from the source), for
comparison with `random`: "pops the step first, then the upper bound, then
the lower bound, and on success pushes
lower + random_int_below(ceil((upper-lower)/step)) * step; it fails with
RangeException when the two bound values are equal, and with
StepSizeException when the step is 0 or the step's sign disagrees with the
sign of (upper-lower)" — using the same random oracle as `random`. -/
def randomClaimed : command := fun st e => do
  let (step, st1) ← getNum st
  let (upper, st2) ← getNum st1
  let (lower, st3) ← getNum st2
  if upper = lower then .error (.exc ⟨"RangeException", "random range is of size 0"⟩)
  else if step = 0 then .error (.exc ⟨"StepSizeException", "step size cannot be 0"⟩)
  else if decide (upper - lower > 0) = decide (step > 0) then
    let d : Nat := e.rand.headD 0 % (⌈(upper - lower) / step⌉).toNat
    .ok (Val.numV (lower + (d : ℚ) * step) :: st3, { e with rand := e.rand.tail })
  else .error (.exc ⟨"StepSizeException",
    "step size sign must match boundary difference sign"⟩)

mutual

/-- The structural invariant the `second` class's guarded mutators actually
enforce: nowhere in this command does a `second` block have a `second`
block as a DIRECT child. -/
def secFree : Cmd → Bool
  | .bi _ _ => true
  | .pushC _ _ => true
  | .if_ _ cs => secFreeList cs
  | .if_else _ _ cs => secFreeList cs
  | .second _ cs => cs.all (fun c => !isSecNode c) && secFreeList cs
  | .while_ _ cs => secFreeList cs

/-- `secFree` over a child list. -/
def secFreeList : List Cmd → Bool
  | [] => true
  | c :: cs => secFree c && secFreeList cs

end

/-- The invariant `actAt` maintains for the child list of a container:
plain containers need their elements `secFree`; a `second` container
additionally has no direct `second` child. -/
def listOK (isSec : Bool) (cs : List Cmd) : Bool :=
  (!isSec || cs.all (fun c => !isSecNode c)) && secFreeList cs

/-- Whether the command an `LAction` may append is itself `secFree`
(always the case for the loader's classified actions). -/
def actFree : LAction → Bool
  | .app c => secFree c
  | _ => true

/-! ### Helper lemmas: decimal rendering round-trips -/

theorem charsToNat_append (l1 l2 : List Char) :
    charsToNat (l1 ++ l2) = l2.foldl (fun a c => 10 * a + (c.toNat - 48)) (charsToNat l1) := by
  simp [charsToNat, List.foldl_append]

theorem digitChar_toNat {d : Nat} (h : d < 10) : (Nat.digitChar d).toNat = 48 + d := by
  interval_cases d <;> rfl

theorem charsToNat_natCharsCore {fuel n : Nat} (h : n ≤ fuel) :
    charsToNat (natCharsCore fuel n) = n := by
  induction fuel using Nat.strong_induction_on generalizing n with
  | _ fuel ih =>
    match fuel, n with
    | _, 0 => simp [natCharsCore, charsToNat]
    | 0, n + 1 => omega
    | fuel + 1, n + 1 =>
      rw [natCharsCore, charsToNat_append]
      have hd : (n + 1) % 10 < 10 := Nat.mod_lt _ (by omega)
      have hq : (n + 1) / 10 < n + 1 := Nat.div_lt_self (by omega) (by omega)
      have := ih fuel (by omega) (n := (n + 1) / 10) (by omega)
      simp [List.foldl, this, digitChar_toNat hd]
      omega

theorem charsToNat_natChars (n : Nat) : charsToNat (natChars n) = n := by
  by_cases h : n = 0
  · subst h; rfl
  · rw [natChars, if_neg h]; exact charsToNat_natCharsCore le_rfl

theorem natCharsCore_digits {fuel n : Nat} {c : Char} (h : c ∈ natCharsCore fuel n) :
    48 ≤ c.toNat ∧ c.toNat ≤ 57 := by
  induction fuel using Nat.strong_induction_on generalizing n with
  | _ fuel ih =>
    match fuel, n with
    | _, 0 => simp [natCharsCore] at h
    | 0, n + 1 => simp [natCharsCore] at h
    | fuel + 1, n + 1 =>
      rw [natCharsCore] at h
      rcases List.mem_append.1 h with h2 | h2
      · exact ih fuel (by omega) h2
      · have hd : (n + 1) % 10 < 10 := Nat.mod_lt _ (by omega)
        simp at h2
        subst h2
        rw [digitChar_toNat hd]
        omega

theorem natChars_digits {n : Nat} {c : Char} (h : c ∈ natChars n) :
    48 ≤ c.toNat ∧ c.toNat ≤ 57 := by
  by_cases h0 : n = 0
  · subst h0; simp [natChars] at h; subst h; decide
  · rw [natChars, if_neg h0] at h; exact natCharsCore_digits h

theorem natChars_ne_nil (n : Nat) : natChars n ≠ [] := by
  by_cases h0 : n = 0
  · subst h0; decide
  · rw [natChars, if_neg h0]
    match n, h0 with
    | n + 1, _ => simp [natCharsCore]

/-! ### Helper lemmas: the numeral path of `_eval` -/

theorem digit_ne {c : Char} (h : 48 ≤ c.toNat ∧ c.toNat ≤ 57) :
    c ≠ '.' ∧ c ≠ '/' ∧ c ≠ '-' ∧ c ≠ '"' := by
  refine ⟨?_, ?_, ?_, ?_⟩ <;> (rintro rfl; revert h; decide)

theorem sepCheck_digits {cs : List Char} (h : ∀ c ∈ cs, 48 ≤ c.toNat ∧ c.toNat ≤ 57) :
    ∀ s, sepCheck cs s = true := by
  induction cs with
  | nil => intro s; rfl
  | cons c rest ih =>
    intro s
    have hc := h c (by simp)
    have hne := digit_ne hc
    rw [sepCheck, if_neg (by tauto), if_pos hc]
    exact ih (fun x hx => h x (by simp [hx])) s

theorem sepCheck_digits_sep {l1 l2 : List Char} {sep : Char} (hsep : sep = '.' ∨ sep = '/')
    (h1 : ∀ c ∈ l1, 48 ≤ c.toNat ∧ c.toNat ≤ 57)
    (h2 : ∀ c ∈ l2, 48 ≤ c.toNat ∧ c.toNat ≤ 57) :
    sepCheck (l1 ++ sep :: l2) false = true := by
  induction l1 with
  | nil =>
    rw [List.nil_append, sepCheck, if_pos hsep]
    exact sepCheck_digits h2 true
  | cons c rest ih =>
    have hc := h1 c (by simp)
    have hne := digit_ne hc
    rw [List.cons_append, sepCheck, if_neg (by tauto), if_pos hc]
    exact ih (fun x hx => h1 x (by simp [hx]))

theorem takeWhile_append_sep {l1 l2 : List Char} {sep : Char} (h : ∀ c ∈ l1, c ≠ sep) :
    (l1 ++ sep :: l2).takeWhile (fun c => c != sep) = l1 ∧
    (l1 ++ sep :: l2).dropWhile (fun c => c != sep) = sep :: l2 := by
  induction l1 with
  | nil => constructor <;> simp [List.takeWhile, List.dropWhile]
  | cons c rest ih =>
    have hc : (c != sep) = true := by
      simp only [bne_iff_ne, ne_eq]; exact h c (by simp)
    have := ih (fun x hx => h x (by simp [hx]))
    constructor <;> simp [List.takeWhile_cons, List.dropWhile_cons, hc, this.1, this.2]

theorem any_append_sep (l1 l2 : List Char) (sep : Char) :
    (l1 ++ sep :: l2).any (fun c => c == sep) = true := by
  simp [List.any_append]

theorem any_digits_eq_false {l : List Char} {sep : Char}
    (h : ∀ c ∈ l, 48 ≤ c.toNat ∧ c.toNat ≤ 57) (hsep : sep = '.' ∨ sep = '/') :
    l.any (fun c => c == sep) = false := by
  rw [List.any_eq_false]
  intro c hc
  have := digit_ne (h c hc)
  rcases hsep with rfl | rfl <;> simp <;> tauto

theorem mem_digits_ne_sep {l : List Char} (h : ∀ c ∈ l, 48 ≤ c.toNat ∧ c.toNat ≤ 57)
    {sep : Char} (hsep : sep = '.' ∨ sep = '/') : sep ∉ l := by
  intro hm
  have := digit_ne (h sep hm)
  rcases hsep with rfl | rfl
  · exact this.1 rfl
  · exact this.2.1 rfl

theorem pyFraction_digits_pos {l : List Char} (hne : l ≠ [])
    (h : ∀ c ∈ l, 48 ≤ c.toNat ∧ c.toNat ≤ 57) :
    pyFraction l = some ((charsToNat l : ℚ)) := by
  obtain ⟨c, rest, rfl⟩ : ∃ c rest, l = c :: rest := by
    cases l with
    | nil => exact absurd rfl hne
    | cons c r => exact ⟨c, r, rfl⟩
  have hc := h c (by simp)
  have hne2 := digit_ne hc
  rw [pyFraction]
  simp only [List.head?_cons, Option.some.injEq, decide_eq_true_eq, if_neg hne2.2.2.1]
  rw [if_neg (by rw [any_digits_eq_false h (Or.inr rfl)]; exact Bool.false_ne_true),
      if_neg (by rw [any_digits_eq_false h (Or.inl rfl)]; exact Bool.false_ne_true),
      if_neg hne]

theorem pyFraction_digits_neg {l : List Char} (hne : l ≠ [])
    (h : ∀ c ∈ l, 48 ≤ c.toNat ∧ c.toNat ≤ 57) :
    pyFraction ('-' :: l) = some (-(charsToNat l : ℚ)) := by
  rw [pyFraction]
  simp only [List.head?_cons, Option.some.injEq, decide_eq_true_eq, if_pos rfl,
    List.tail_cons, ite_true]
  rw [if_neg (by rw [any_digits_eq_false h (Or.inr rfl)]; exact Bool.false_ne_true),
      if_neg (by rw [any_digits_eq_false h (Or.inl rfl)]; exact Bool.false_ne_true),
      if_neg hne]

theorem pyFraction_digits_frac {A B : List Char} (hA : A ≠ []) (hB : B ≠ [])
    (ha : ∀ c ∈ A, 48 ≤ c.toNat ∧ c.toNat ≤ 57)
    (_hb : ∀ c ∈ B, 48 ≤ c.toNat ∧ c.toNat ≤ 57)
    (hd : charsToNat B ≠ 0) :
    pyFraction (A ++ '/' :: B) = some ((charsToNat A : ℚ) / (charsToNat B : ℚ)) := by
  obtain ⟨c, rest, hl⟩ : ∃ c rest, A = c :: rest := by
    cases A with
    | nil => exact absurd rfl hA
    | cons c r => exact ⟨c, r, rfl⟩
  have hc := ha c (by simp [hl])
  have hne2 := digit_ne hc
  have htd := @takeWhile_append_sep A B '/'
    (fun x hx => (digit_ne (ha x hx)).2.1)
  have hh : (A ++ '/' :: B).head? = some c := by rw [hl]; rfl
  rw [pyFraction]
  simp only [hh, Option.some.injEq, decide_eq_true_eq, if_neg hne2.2.2.1]
  rw [if_pos (any_append_sep A B '/'), htd.1, htd.2, List.tail_cons, if_pos ⟨hA, hB⟩,
      if_neg hd]

theorem pyFraction_digits_neg_frac {A B : List Char} (hA : A ≠ []) (hB : B ≠ [])
    (ha : ∀ c ∈ A, 48 ≤ c.toNat ∧ c.toNat ≤ 57)
    (_hb : ∀ c ∈ B, 48 ≤ c.toNat ∧ c.toNat ≤ 57)
    (hd : charsToNat B ≠ 0) :
    pyFraction ('-' :: (A ++ '/' :: B)) =
      some (-((charsToNat A : ℚ) / (charsToNat B : ℚ))) := by
  have htd := @takeWhile_append_sep A B '/'
    (fun x hx => (digit_ne (ha x hx)).2.1)
  rw [pyFraction]
  simp only [List.head?_cons, Option.some.injEq, decide_eq_true_eq, if_pos rfl,
    List.tail_cons, ite_true]
  rw [if_pos (any_append_sep A B '/'), htd.1, htd.2, List.tail_cons, if_pos ⟨hA, hB⟩,
      if_neg hd]

theorem evalNumTok_digits_pos {l : List Char} (hne : l ≠ [])
    (h : ∀ c ∈ l, 48 ≤ c.toNat ∧ c.toNat ≤ 57) :
    evalNumTok l = some (.numV (charsToNat l : ℚ)) := by
  obtain ⟨c, rest, rfl⟩ : ∃ c rest, l = c :: rest := by
    cases l with
    | nil => exact absurd rfl hne
    | cons c r => exact ⟨c, r, rfl⟩
  have hne2 := digit_ne (h c (by simp))
  rw [evalNumTok]
  simp only [List.head?_cons, Option.some.injEq, decide_eq_true_eq, if_neg hne2.2.2.1]
  rw [if_pos (sepCheck_digits h false), pyFraction_digits_pos hne h]
  rfl

theorem evalNumTok_digits_neg {l : List Char} (hne : l ≠ [])
    (h : ∀ c ∈ l, 48 ≤ c.toNat ∧ c.toNat ≤ 57) :
    evalNumTok ('-' :: l) = some (.numV (-(charsToNat l : ℚ))) := by
  rw [evalNumTok]
  simp only [List.head?_cons, Option.some.injEq, decide_eq_true_eq, if_pos rfl,
    List.tail_cons, ite_true]
  rw [if_pos (sepCheck_digits h false), pyFraction_digits_neg hne h]
  rfl

theorem evalNumTok_digits_frac {A B : List Char} (hA : A ≠ []) (hB : B ≠ [])
    (ha : ∀ c ∈ A, 48 ≤ c.toNat ∧ c.toNat ≤ 57)
    (hb : ∀ c ∈ B, 48 ≤ c.toNat ∧ c.toNat ≤ 57)
    (hd : charsToNat B ≠ 0) :
    evalNumTok (A ++ '/' :: B) =
      some (.numV ((charsToNat A : ℚ) / (charsToNat B : ℚ))) := by
  obtain ⟨c, rest, hl⟩ : ∃ c rest, A = c :: rest := by
    cases A with
    | nil => exact absurd rfl hA
    | cons c r => exact ⟨c, r, rfl⟩
  have hne2 := digit_ne (ha c (by simp [hl]))
  have hh : (A ++ '/' :: B).head? = some c := by rw [hl]; rfl
  rw [evalNumTok]
  simp only [hh, Option.some.injEq, decide_eq_true_eq, if_neg hne2.2.2.1]
  rw [if_pos (sepCheck_digits_sep (Or.inr rfl) ha hb),
    pyFraction_digits_frac hA hB ha hb hd]
  rfl

theorem evalNumTok_digits_neg_frac {A B : List Char} (hA : A ≠ []) (hB : B ≠ [])
    (ha : ∀ c ∈ A, 48 ≤ c.toNat ∧ c.toNat ≤ 57)
    (hb : ∀ c ∈ B, 48 ≤ c.toNat ∧ c.toNat ≤ 57)
    (hd : charsToNat B ≠ 0) :
    evalNumTok ('-' :: (A ++ '/' :: B)) =
      some (.numV (-((charsToNat A : ℚ) / (charsToNat B : ℚ)))) := by
  rw [evalNumTok]
  simp only [List.head?_cons, Option.some.injEq, decide_eq_true_eq, if_pos rfl,
    List.tail_cons, ite_true]
  rw [if_pos (sepCheck_digits_sep (Or.inr rfl) ha hb),
    pyFraction_digits_neg_frac hA hB ha hb hd]
  rfl

/-! ### Helper lemmas: which branch of `_eval` a token takes -/

theorem string_mk_ne {l : List Char} {c : Char} (h1 : l.head? = some c) (h2 : c.toNat ≤ 57)
    {s : String} (h3 : 58 ≤ (s.data.headD 'A').toNat) : String.mk l ≠ s := by
  intro he
  subst he
  cases l with
  | nil => simp at h1
  | cons a rest =>
    simp only [List.head?_cons, Option.some.injEq] at h1
    subst h1
    simp only [List.headD_cons] at h3
    omega

theorem eval_quoted (body : List Char) :
    _eval (String.mk ('"' :: body)) =
      (decodeStr body).map (fun cs => Val.strV (String.mk cs)) := by
  have hh : ('"' :: body).head? = some '"' := rfl
  rw [_eval,
    if_neg (string_mk_ne hh (by decide) (by decide)),
    if_neg (string_mk_ne hh (by decide) (by decide)),
    if_neg (string_mk_ne hh (by decide) (by decide)),
    if_neg (string_mk_ne hh (by decide) (by decide)),
    if_neg (string_mk_ne hh (by decide) (by decide)),
    if_neg (string_mk_ne hh (by decide) (by decide))]
  rfl

theorem eval_numToken {l : List Char} {c : Char} (h1 : l.head? = some c)
    (h2 : 45 ≤ c.toNat) (h3 : c.toNat ≤ 57) :
    _eval (String.mk l) = evalNumTok l := by
  rw [_eval,
    if_neg (string_mk_ne h1 h3 (by decide)),
    if_neg (string_mk_ne h1 h3 (by decide)),
    if_neg (string_mk_ne h1 h3 (by decide)),
    if_neg (string_mk_ne h1 h3 (by decide)),
    if_neg (string_mk_ne h1 h3 (by decide)),
    if_neg (string_mk_ne h1 h3 (by decide))]
  cases l with
  | nil => simp at h1
  | cons a rest =>
    simp only [List.head?_cons, Option.some.injEq] at h1
    subst h1
    have hq : a ≠ '"' := by
      intro he
      subst he
      revert h2
      decide
    split
    next b heq =>
      have heq2 : a :: rest = '"' :: b := heq
      injection heq2 with hx _
      exact absurd hx hq
    next => rfl

/-! ### Helper lemmas: escape encoding and decoding -/

theorem decodeStr_cons_ne {c : Char} (h : c ≠ '\\') (l : List Char) :
    decodeStr (c :: l) = (decodeStr l).map (fun r => c :: r) :=
  decodeStr.eq_5 c l (fun _ hc _ => h hc) (fun _ hc _ => h hc) h

theorem encodeStr_cons_ne {c : Char} (h1 : c ≠ '\\') (h2 : c ≠ '\n') (l : List Char) :
    encodeStr (c :: l) = c :: encodeStr l := by
  simp [encodeStr, pyReplaceChar, h1, h2]

theorem decode_encode (l : List Char) : decodeStr (encodeStr l) = some l := by
  induction l with
  | nil => rfl
  | cons c rest ih =>
    by_cases h1 : c = '\\'
    · subst h1
      rw [show encodeStr ('\\' :: rest) = '\\' :: '\\' :: encodeStr rest from rfl,
        decodeStr.eq_3, ih]
      rfl
    · by_cases h2 : c = '\n'
      · subst h2
        rw [show encodeStr ('\n' :: rest) = '\\' :: 'n' :: encodeStr rest from rfl,
          decodeStr.eq_2, ih]
        rfl
      · rw [encodeStr_cons_ne h1 h2, decodeStr_cons_ne h1, ih]
        rfl

theorem decodeStr_isNone_iff (l : List Char) :
    decodeStr l = none ↔ hasBadEscape l = true := by
  induction l using decodeStr.induct with
  | case1 => simp [decodeStr, hasBadEscape]
  | case2 cs ih => simpa [decodeStr, hasBadEscape] using ih
  | case3 cs ih => simpa [decodeStr, hasBadEscape] using ih
  | case4 tail h1 h2 =>
    rw [decodeStr.eq_4 tail h1 h2, hasBadEscape.eq_4 tail h1 h2]
    simp
  | case5 c cs h1 h2 h3 ih =>
    rw [decodeStr_cons_ne h3 cs,
      hasBadEscape.eq_5 c cs (fun _ hc _ => h3 hc) (fun _ hc _ => h3 hc) h3, ← ih]
    cases decodeStr cs <;> simp

/-! ### Helper lemmas: the repr/eval round trip -/

theorem intChars_head (z : Int) :
    ∃ c rest, intChars z = c :: rest ∧ 45 ≤ c.toNat ∧ c.toNat ≤ 57 := by
  rw [intChars]
  by_cases hneg : z < 0
  · exact ⟨'-', natChars z.natAbs, by rw [if_pos hneg], by decide, by decide⟩
  · rw [if_neg hneg]
    obtain ⟨c, rest, hc⟩ : ∃ c rest, natChars z.toNat = c :: rest := by
      cases h : natChars z.toNat with
      | nil => exact absurd h (natChars_ne_nil _)
      | cons c r => exact ⟨c, r, rfl⟩
    have hd := natChars_digits (n := z.toNat) (c := c) (by rw [hc]; simp)
    exact ⟨c, rest, hc, by omega, hd.2⟩

theorem cast_natAbs_of_neg {z : Int} (h : z < 0) : ((z.natAbs : ℚ)) = -(z : ℚ) := by
  have h2 : |z| = -z := abs_of_neg h
  rw [Int.cast_natAbs, h2]
  push_cast
  ring

theorem cast_toNat_of_nonneg {z : Int} (h : ¬ z < 0) : ((z.toNat : ℚ)) = (z : ℚ) := by
  have h2 : (z.toNat : ℤ) = z := Int.toNat_of_nonneg (by omega)
  exact_mod_cast h2

theorem eval_repr_num (q : ℚ) : _eval (_repr (.numV q)) = some (.numV q) := by
  rw [_repr]
  by_cases hden : q.den = 1
  · rw [if_pos hden]
    obtain ⟨c, rest, hc, h1, h2⟩ := intChars_head q.num
    rw [eval_numToken (by rw [hc]; rfl) h1 h2]
    by_cases hneg : q.num < 0
    · rw [intChars, if_pos hneg,
        evalNumTok_digits_neg (natChars_ne_nil _) (fun c hc => natChars_digits hc),
        charsToNat_natChars, cast_natAbs_of_neg hneg, neg_neg,
        Rat.coe_int_num_of_den_eq_one hden]
    · rw [intChars, if_neg hneg,
        evalNumTok_digits_pos (natChars_ne_nil _) (fun c hc => natChars_digits hc),
        charsToNat_natChars, cast_toNat_of_nonneg hneg,
        Rat.coe_int_num_of_den_eq_one hden]
  · rw [if_neg hden]
    have hBne := natChars_ne_nil q.den
    have hBd : ∀ c ∈ natChars q.den, 48 ≤ c.toNat ∧ c.toNat ≤ 57 :=
      fun c hc => natChars_digits hc
    have hdden : charsToNat (natChars q.den) ≠ 0 := by
      rw [charsToNat_natChars]; exact q.den_nz
    obtain ⟨c, rest, hc, h1, h2⟩ := intChars_head q.num
    have hh : (intChars q.num ++ '/' :: natChars q.den).head? = some c := by
      rw [hc]; rfl
    rw [eval_numToken hh h1 h2]
    by_cases hneg : q.num < 0
    · rw [intChars, if_pos hneg, List.cons_append,
        evalNumTok_digits_neg_frac (natChars_ne_nil _) hBne
          (fun c hc => natChars_digits hc) hBd hdden,
        charsToNat_natChars, charsToNat_natChars, cast_natAbs_of_neg hneg]
      rw [show -(-(q.num : ℚ) / (q.den : ℚ)) = (q.num : ℚ) / (q.den : ℚ) by ring,
        Rat.num_div_den]
    · rw [intChars, if_neg hneg,
        evalNumTok_digits_frac (natChars_ne_nil _) hBne
          (fun c hc => natChars_digits hc) hBd hdden,
        charsToNat_natChars, charsToNat_natChars, cast_toNat_of_nonneg hneg,
        Rat.num_div_den]

theorem eval_repr (v : Val) : _eval (_repr v) = some v := by
  match v with
  | .boolV true => rfl
  | .boolV false => rfl
  | .typeV .boolT => rfl
  | .typeV .numT => rfl
  | .typeV .strT => rfl
  | .typeV .typeT => rfl
  | .numV q => exact eval_repr_num q
  | .strV s =>
    rw [_repr, eval_quoted, decode_encode]
    cases s
    rfl

/-! ### Helper lemmas: the loader's second-nesting invariant -/

theorem secFreeList_append (l1 l2 : List Cmd) :
    secFreeList (l1 ++ l2) = (secFreeList l1 && secFreeList l2) := by
  induction l1 with
  | nil => simp [secFreeList]
  | cons c rest ih => simp [secFreeList, ih, Bool.and_assoc]

theorem getLast?_decomp {α : Type} {l : List α} {a : α} (h : l.getLast? = some a) :
    l = l.dropLast ++ [a] := by
  induction l with
  | nil => simp at h
  | cons x rest ih =>
    cases rest with
    | nil =>
      simp only [List.getLast?_singleton, Option.some.injEq] at h
      subst h
      rfl
    | cons y t =>
      rw [List.getLast?_cons_cons] at h
      rw [List.dropLast_cons₂, List.cons_append]
      exact congrArg (x :: ·) (ih h)

theorem secFree_children {c : Cmd} {sub : List Cmd} (h : childrenOf c = some sub) :
    secFree c = listOK (isSecNode c) sub := by
  cases c <;> simp_all [childrenOf, secFree, isSecNode, listOK]

theorem childrenOf_withChildren {c : Cmd} {sub : List Cmd} (h : childrenOf c = some sub)
    (sub2 : List Cmd) :
    childrenOf (withChildren c sub2) = some sub2 ∧
    isSecNode (withChildren c sub2) = isSecNode c := by
  cases c <;> simp_all [childrenOf, withChildren, isSecNode]

theorem listOK_append_one {isSec : Bool} {cs : List Cmd} {c : Cmd}
    (h1 : listOK isSec cs = true) (h2 : secFree c = true)
    (h3 : isSec = true → isSecNode c = false) :
    listOK isSec (cs ++ [c]) = true := by
  cases isSec <;>
    simp_all [listOK, List.all_append, secFreeList_append, secFreeList, List.all_cons]

theorem listOK_decomp {isSec : Bool} {cs : List Cmd} {a : Cmd}
    (hl : cs.getLast? = some a) (h : listOK isSec cs = true) :
    listOK isSec cs.dropLast = true ∧ secFree a = true ∧
      (isSec = true → isSecNode a = false) := by
  rw [getLast?_decomp hl] at h
  cases isSec <;>
    simp_all [listOK, List.all_append, secFreeList_append, secFreeList, List.all_cons]

theorem actAt_listOK : ∀ (d : Nat) {isSec : Bool} {cs cs' : List Cmd} {act : LAction},
    listOK isSec cs = true → actFree act = true →
    actAt isSec cs d act = .ok cs' → listOK isSec cs' = true := by
  intro d
  induction d with
  | zero =>
    intro isSec cs cs' act hOK hact h
    rw [actAt] at h
    match act with
    | .app c =>
      rw [actHere] at h
      split at h
      · exact nomatch h
      next hguard =>
        cases h
        refine listOK_append_one hOK hact ?_
        intro hsec
        subst hsec
        simpa using hguard
    | .els =>
      rw [actHere] at h
      split at h
      · exact nomatch h
      next ln body hlast =>
        cases h
        obtain ⟨hdl, hfree, hsec⟩ := listOK_decomp hlast hOK
        refine listOK_append_one hdl ?_ ?_
        · simpa [secFree] using hfree
        · intro hs
          rfl
      · exact nomatch h
    | .litErr tok => exact nomatch h
    | .cmdErr nm => exact nomatch h
  | succ d ih =>
    intro isSec cs cs' act hOK hact h
    rw [actAt] at h
    split at h
    · exact nomatch h
    next last hlast =>
      split at h
      next sub hsub =>
        split at h
        next sub2 hrec =>
          cases h
          obtain ⟨hdl, hfree, hsec⟩ := listOK_decomp hlast hOK
          have hin : listOK (isSecNode last) sub = true := by
            rw [← secFree_children hsub]
            exact hfree
          have hout := ih hin hact hrec
          have hw := childrenOf_withChildren hsub sub2
          refine listOK_append_one hdl ?_ ?_
          · rw [secFree_children hw.1, hw.2]
            exact hout
          · intro hs
            rw [hw.2]
            exact hsec hs
        · exact nomatch h
      next hnone =>
        split at h
        · cases act <;> exact nomatch h
        · exact nomatch h

theorem cmdOfName_secFree {ln : Nat} {s : String} {c : Cmd} (h : cmdOfName ln s = some c) :
    secFree c = true := by
  rw [cmdOfName.eq_def] at h
  split at h <;> first
    | (cases h; rfl)
    | exact nomatch h

theorem classify_actFree (ln : Nat) (content : List Char) :
    actFree (classify ln content) = true := by
  rw [classify]
  split
  next tok =>
    split
    · rfl
    · rfl
  next =>
    split
    · rfl
    · split
      next c hc => exact cmdOfName_secFree hc
      next => rfl

theorem loadAux_secFree : ∀ (lines : List String) (n : Nat) {cs prog : List Cmd},
    secFreeList cs = true → loadAux n cs lines = .ok prog → secFreeList prog = true := by
  intro lines
  induction lines with
  | nil =>
    intro n cs prog h hl
    rw [loadAux] at hl
    cases hl
    exact h
  | cons l rest ih =>
    intro n cs prog h hl
    rw [loadAux] at hl
    split at hl
    next cs2 hline =>
      refine ih (n + 1) ?_ hl
      rw [loadLine] at hline
      have hOK : listOK false cs = true := by simpa [listOK] using h
      have h2 := actAt_listOK _ hOK (classify_actFree n _) hline
      simpa [listOK] using h2
    next => exact nomatch hl

/-! ### Further helper lemmas for the claim theorems -/

theorem onStack_sec_primary {f : command} {σ σ2 : MState}
    (h : onStack f .sec σ = .ok σ2) : σ2.primary = σ.primary := by
  rw [onStack] at h
  split at h
  · cases h; rfl
  · exact nomatch h

/-! ### The claims -/

/-- C1: the claim says a run-time ProgramException's header
`<ErrorName>#<line>` carries the 1-based source line of the statement being
executed when the failure occurred.  The code is wrong: after the parse
loop, `line_number` is left at the index of the LAST source line, and the
exception handler prints that stale value.  For the program `drop` /
`drop`, the first `drop` (line 1) raises the PopException, yet the header
reports line 2. -/
theorem c1_header_line_code_bug :
    load ["drop", "drop"] = .ok [Cmd.bi 1 .drop, Cmd.bi 2 .drop]
    ∧ failingLine ["drop", "drop"] [] [] 3 = some 1
    ∧ reportedHeader ["drop", "drop"] [] [] 3 = some ("PopException", 2)
    ∧ (some 1 : Option Nat) ≠ some 2 :=
  ⟨rfl, rfl, rfl, by decide⟩

/-- C2 counterexample: the claim says that inside a `second` block EVERY
built-in child's stack operations are redirected to the secondary stack,
"including `flip`".  But `flip` ignores the stack it is handed: called with
the secondary stack (as `second.__call__` does), it still pops the PRIMARY
stack — here the primary stack shrinks from `[1]` to `[]`, which redirected
semantics would forbid (a pop redirected to the empty secondary stack would
have to fail). -/
theorem c2_counterexample :
    runBuiltin .flip .sec ⟨[Val.numV 1], [], ⟨[], "", []⟩⟩ =
      .ok ⟨[], [Val.numV 1], ⟨[], "", []⟩⟩
    ∧ (⟨[], [Val.numV 1], ⟨[], "", []⟩⟩ : MState).primary ≠
        (⟨[Val.numV 1], [], ⟨[], "", []⟩⟩ : MState).primary :=
  ⟨rfl, by decide⟩

/-- C2 amended: a `second` block invokes every child with the secondary
stack as its operand stack, and every built-in except `flip` therefore
leaves the primary stack untouched; `flip` is the exception — it always
pops the primary stack and pushes onto the secondary stack, regardless of
the stack it was handed. -/
theorem c2_amended :
    (∀ (fuel ln : Nat) (cs : List Cmd) (sel : Sel) (σ : MState),
      execCmd (fuel + 1) (.second ln cs) sel σ =
        execSeq (fun c2 σ3 => execCmd fuel c2 .sec σ3) cs σ)
    ∧ (∀ b : Builtin, b ≠ .flip → ∀ σ σ2 : MState,
        runBuiltin b .sec σ = .ok σ2 → σ2.primary = σ.primary)
    ∧ (∀ (σ : MState) (x : Val) (p : List Val), σ.primary = x :: p →
        runBuiltin .flip .sec σ =
          .ok { σ with primary := p, secondary := x :: σ.secondary }) := by
  refine ⟨fun fuel ln cs sel σ => rfl, ?_, ?_⟩
  · intro b hb σ σ2 h
    cases b
    case flip => exact absurd rfl hb
    all_goals exact onStack_sec_primary h
  · intro σ x p hp
    rw [runBuiltin, hp]
    rfl

theorem c2_amended_witness :
    (∀ σ2 : MState,
      runBuiltin .drop .sec ⟨[Val.numV 9], [Val.boolV true], ⟨[], "", []⟩⟩ = .ok σ2 →
        σ2.primary = [Val.numV 9])
    ∧ runBuiltin .flip .sec ⟨[Val.numV 5], [], ⟨[], "", []⟩⟩ =
        .ok ⟨[], [Val.numV 5], ⟨[], "", []⟩⟩ :=
  ⟨fun σ2 h => c2_amended.2.1 .drop (by decide) _ σ2 h,
    c2_amended.2.2 ⟨[Val.numV 5], [], ⟨[], "", []⟩⟩ (Val.numV 5) [] rfl⟩

/-- C3 counterexample: the claim says a `second` nested inside another
`second` at ANY depth — e.g. through an intervening `if` — is rejected at
load time with a SecondError.  It is not: the SecondError check lives only
in the `second` class's own mutators, and the inner `second` here is
appended to the plain `if_` block, so the three-line program
`second` / `  if` / `    second` loads successfully into a tree with a
`second` nested (at depth two) inside a `second`. -/
theorem c3_counterexample :
    load ["second", "  if", "    second"] =
      .ok [Cmd.second 1 [Cmd.if_ 2 [Cmd.second 3 []]]] :=
  rfl

/-- C3 amended: what the loader actually enforces is the DIRECT-child
invariant: no successfully loaded program contains a `second` block with a
`second` block as an immediate child, and a program that makes a `second`
a direct child of a `second` (e.g. `second` / `  second`) is rejected at
load time with a SecondError; nesting through an intervening block is
accepted. -/
theorem c3_amended :
    (∀ (lines : List String) (prog : List Cmd),
      load lines = .ok prog → secFreeList prog = true)
    ∧ load ["second", "  second"] =
        .error (.perr "SecondError" "cannot nest second blocks", 2) := by
  constructor
  · intro lines prog h
    exact loadAux_secFree (sourceLines lines) 1 (by rfl) h
  · rfl

theorem c3_amended_witness : secFreeList [Cmd.second 1 []] = true :=
  c3_amended.1 ["second"] [Cmd.second 1 []] rfl

/-- C4 counterexample: the claim's pop order (step first, then upper bound,
then lower bound) disagrees with the code.  On the stack `[3, 3, 7]`
(top first) the code pops the two BOUNDS `3, 3` first and raises
RangeException; under the claim's reading (step `3`, upper `3`, lower `7`)
the bounds differ and the sign of the step disagrees with
`upper - lower = -4`, so the claim demands a StepSizeException. -/
theorem c4_counterexample :
    random [Val.numV 3, Val.numV 3, Val.numV 7] ⟨[], "", []⟩ =
      .error (.exc ⟨"RangeException", "random range is of size 0"⟩)
    ∧ randomClaimed [Val.numV 3, Val.numV 3, Val.numV 7] ⟨[], "", []⟩ =
        .error (.exc ⟨"StepSizeException",
          "step size sign must match boundary difference sign"⟩)
    ∧ (⟨"RangeException", "random range is of size 0"⟩ : PErr) ≠
        ⟨"StepSizeException", "step size sign must match boundary difference sign"⟩ := by
  refine ⟨rfl, ?_, by decide⟩
  conv_lhs => whnf
  simp only [asNum]
  rw [decide_eq_false (show ¬((3 : ℚ) - 7 > 0) by norm_num),
    decide_eq_true (show (3 : ℚ) > 0 by norm_num)]
  rfl

/-- C4 amended: `random` pops the BASE bound first (the stack top), then
the far bound, then the step.  RangeException fires when the two bounds are
equal and is checked before the step is popped (second conjunct: a
two-element stack with equal bounds still gets RangeException, not a
PopException for the missing step); StepSizeException fires when the step
is 0 or its sign disagrees with the sign of (far − base); on success it
pushes base + randrange(ceil((far − base) / step)) · step, the draw taken
from the random oracle. -/
theorem c4_amended :
    (∀ (a b s : ℚ) (rest : List Val) (e : Effects),
      random (Val.numV a :: Val.numV b :: Val.numV s :: rest) e =
        (if a = b then .error (.exc ⟨"RangeException", "random range is of size 0"⟩)
         else if s = 0 then .error (.exc ⟨"StepSizeException", "step size cannot be 0"⟩)
         else if decide (b > a) = decide (s > 0) then
           .ok (Val.numV (a + ((e.rand.headD 0 % (⌈(b - a) / s⌉).toNat : ℕ) : ℚ) * s) :: rest,
             { e with rand := e.rand.tail })
         else .error (.exc ⟨"StepSizeException",
           "step size sign must match boundary difference sign"⟩)))
    ∧ (∀ (a : ℚ) (e : Effects),
        random [Val.numV a, Val.numV a] e =
          .error (.exc ⟨"RangeException", "random range is of size 0"⟩)) := by
  refine ⟨fun a b s rest e => rfl, ?_⟩
  intro a e
  conv_lhs => whnf
  generalize instDecidableEqRat (asNum (Val.numV a)) (asNum (Val.numV a)) = d
  cases d with
  | isTrue ht => rfl
  | isFalse hf => exact absurd rfl hf

/-- C5 counterexample: the claim says an unterminated quoted token (no
closing quote) fails literal evaluation.  It does not: `_eval` has no
notion of a closing quote at all — the two-character token `"a` evaluates
to the string `a`, and the same token is accepted by the loader's
`push` branch. -/
theorem c5_counterexample :
    _eval "\"a" = some (Val.strV "a")
    ∧ loadLine 1 [] "push \"a" = .ok [Cmd.pushC 1 (Val.strV "a")] :=
  ⟨rfl, rfl⟩

/-- C5 amended: evaluation of a `"`-initial token fails exactly when its
body (everything after the opening quote) contains a bad escape — a
backslash followed by anything other than `n` or `\`, or a trailing
backslash; there is no closing-quote requirement, and a `"` in the body is
an ordinary character.  Such failures surface as a LiteralError at load
time via `push` and as a LiteralException at run time via `eval`. -/
theorem c5_amended :
    (∀ body : List Char, _eval (String.mk ('"' :: body)) =
      (decodeStr body).map (fun cs => Val.strV (String.mk cs)))
    ∧ (∀ body : List Char, decodeStr body = none ↔ hasBadEscape body = true)
    ∧ (∀ x : String, _eval x = none → ∀ (rest : List Val) (e : Effects),
        eval_ (Val.strV x :: rest) e =
          .error (.exc ⟨"LiteralException", "\"" ++ x ++ "\" is not a valid literal"⟩))
    ∧ (∀ x : String, _eval x = none → ∀ (ln : Nat) (cs : List Cmd),
        loadLine ln cs (String.mk ('p' :: 'u' :: 's' :: 'h' :: ' ' :: x.data)) =
          .error (.perr "LiteralError" ("\"" ++ x ++ "\" is not a valid literal"))) := by
  refine ⟨eval_quoted, decodeStr_isNone_iff, ?_, ?_⟩
  · intro x h rest e
    rw [show eval_ (Val.strV x :: rest) e =
      (match _eval x with
       | some v => Except.ok (v :: rest, e)
       | none => .error (.exc ⟨"LiteralException",
           "\"" ++ x ++ "\" is not a valid literal"⟩)) from rfl, h]
  · intro x h ln cs
    obtain ⟨d⟩ := x
    rw [show loadLine ln cs (String.mk ('p' :: 'u' :: 's' :: 'h' :: ' ' :: d)) =
      actHere false cs
        (match _eval (String.mk d) with
          | some v => LAction.app (.pushC ln v)
          | none => .litErr (String.mk d)) from rfl, h]
    rfl

theorem c5_amended_witness :
    eval_ [Val.strV "\"\\q"] ⟨[], "", []⟩ =
      .error (.exc ⟨"LiteralException", "\"" ++ "\"\\q" ++ "\" is not a valid literal"⟩)
    ∧ loadLine 1 [] "push \"\\q" =
        .error (.perr "LiteralError" ("\"" ++ "\"\\q" ++ "\" is not a valid literal")) :=
  ⟨c5_amended.2.2.1 "\"\\q" rfl [] ⟨[], "", []⟩,
    c5_amended.2.2.2 "\"\\q" rfl 1 []⟩

/-- C6: the claim says every `else` line whose container's last element is
not a plain `if` block fails with an ElseError, including the
empty-container case.  The code is wrong on the empty container: `else` as
the very first statement evaluates `target[-1]` on an empty list, raising
an IndexError that no handler catches — the interpreter crashes with a
traceback instead of reporting an ElseError (the other cases behave as
claimed: an `if` is upgraded in place, anything else is an ElseError). -/
theorem c6_else_empty_crash :
    load ["else"] = .error (.lcrash, 1)
    ∧ load ["if", "else"] = .ok [Cmd.if_else 1 0 []]
    ∧ load ["add", "else"] = .error (.perr "ElseError" "else must have a matching if", 2)
    ∧ LoadErr.lcrash ≠ .perr "ElseError" "else must have a matching if" :=
  ⟨rfl, rfl, rfl, by decide⟩

/-- C7: for every token the literal evaluator accepts, evaluating the
printable representation of the result reproduces the same value (same
runtime tag and payload) — the repr/eval round trip holds for all four
value kinds, including non-integral rationals and strings (whose repr
omits the closing quote, which `_eval` accordingly never requires). -/
theorem c7_roundtrip (t : String) (v : Val) (_h : _eval t = some v) :
    _eval (_repr v) = some v :=
  eval_repr v

theorem c7_roundtrip_witness :
    _eval "true" = some (Val.boolV true)
    ∧ _eval (_repr (Val.boolV true)) = some (Val.boolV true) :=
  ⟨rfl, c7_roundtrip "true" (Val.boolV true) rfl⟩

/-- C8: popping from an empty stack always raises a PopException and
popping a value whose runtime type differs from the required exact type
always raises a TypeException (both via `_get`, i.e. run-time
ProgramExceptions carried in the `Except` error channel of execution, not
load-time errors); moreover every built-in except `input` pops first, so on
a state with two empty stacks every such built-in fails with exactly the
PopException. -/
theorem c8_pop_type_exceptions :
    (∀ t, _get [] t = .error ⟨"PopException", "cannot pop from empty stack"⟩)
    ∧ (∀ t v rest, reqMatches t v = false →
        _get (v :: rest) t = .error ⟨"TypeException",
          "recieved value of type " ++ typeName (typeOf v) ++
            " (expected " ++ reqName t ++ ")"⟩)
    ∧ (∀ b : Builtin, b ≠ .input_ → ∀ (sel : Sel) (inp : List String) (out : String)
        (rand : List Nat),
        runBuiltin b sel ⟨[], [], ⟨inp, out, rand⟩⟩ =
          .error (.exc ⟨"PopException", "cannot pop from empty stack"⟩)) := by
  refine ⟨fun t => rfl, ?_, ?_⟩
  · intro t v rest h
    rw [_get.eq_def]
    simp [h]
  · intro b hb sel inp out rand
    cases b
    case input_ => exact absurd rfl hb
    all_goals (cases sel <;> rfl)

theorem c8_witness :
    _get [Val.boolV true] .rNum = .error ⟨"TypeException",
      "recieved value of type " ++ typeName (typeOf (Val.boolV true)) ++
        " (expected " ++ reqName .rNum ++ ")"⟩
    ∧ runBuiltin .add .pri ⟨[], [], ⟨[], "", []⟩⟩ =
        .error (.exc ⟨"PopException", "cannot pop from empty stack"⟩) :=
  ⟨c8_pop_type_exceptions.2.1 .rNum (Val.boolV true) [] rfl,
    c8_pop_type_exceptions.2.2 .add (by decide) .pri [] "" []⟩

/-- C9: `split` pops a string and leaves its characters as one-character
strings with the leftmost character on top of the stack and the rightmost
deepest (in our head-top representation, the character list in source order
prepended to the rest of the stack) — matching the source's
`extend(reversed(x))` on a tail-top list. -/
theorem c9_split_order :
    ∀ (s : String) (rest : List Val) (e : Effects),
      split (Val.strV s :: rest) e =
        .ok (s.data.map (fun c => Val.strV (String.mk [c])) ++ rest, e)
      ∧ ∀ (c : Char) (cs : List Char), s.data = c :: cs →
          split (Val.strV s :: rest) e =
            .ok (Val.strV (String.mk [c]) ::
              (cs.map (fun c2 => Val.strV (String.mk [c2])) ++ rest), e) := by
  intro s rest e
  refine ⟨rfl, ?_⟩
  intro c cs h
  rw [show split (Val.strV s :: rest) e =
    .ok (s.data.map (fun c => Val.strV (String.mk [c])) ++ rest, e) from rfl, h]
  rfl

theorem c9_split_order_witness :
    split (Val.strV "ab" :: []) ⟨[], "", []⟩ =
      .ok (Val.strV (String.mk ['a']) ::
        (['b'].map (fun c2 => Val.strV (String.mk [c2])) ++ []), ⟨[], "", []⟩) :=
  (c9_split_order "ab" [] ⟨[], "", []⟩).2 'a' ['b'] rfl

/-- C10: in every order-sensitive binary built-in the first value popped
(the pre-call stack top) is the left operand: `subtract` pushes top − second,
`divide` pushes top / second and its zero test is on the second pop,
`greater`/`less` compare top against the second pop, and `concat` pushes
top ++ second. -/
theorem c10_binop_operand_order :
    ∀ (a b : ℚ) (s t : String) (rest : List Val) (e : Effects),
      subtract (Val.numV a :: Val.numV b :: rest) e = .ok (Val.numV (a - b) :: rest, e)
      ∧ divide (Val.numV a :: Val.numV b :: rest) e =
          (if b = 0 then .error (.exc ⟨"ZeroDivisionException", "cannot divide by 0"⟩)
           else .ok (Val.numV (a / b) :: rest, e))
      ∧ greater (Val.numV a :: Val.numV b :: rest) e =
          .ok (Val.boolV (decide (a > b)) :: rest, e)
      ∧ less (Val.numV a :: Val.numV b :: rest) e =
          .ok (Val.boolV (decide (a < b)) :: rest, e)
      ∧ concat (Val.strV s :: Val.strV t :: rest) e = .ok (Val.strV (s ++ t) :: rest, e) :=
  fun _ _ _ _ _ _ => ⟨rfl, rfl, rfl, rfl, rfl⟩

end ow
